import Mathlib

/-!
Verification of the Region-to-Mask Compositor of the `storyteller` repository
(`src-tauri/src/mask_generator.rs` and the region vocabulary of
`src-tauri/src/llm_parser.rs`).

The embedding below translates the Rust source into Lean definitions:
pure functions become Lean functions on `Nat` and `List Nat` (bytes are
naturals < 256); `u32`/`u16` arithmetic is `Nat` arithmetic with an explicit
`% 2^32` / complement where the source can wrap; the `f32` computations
(`x as f32 * 0.40_f32` followed by `as u32`) are modelled exactly as IEEE-754
binary32 round-to-nearest-even over exact rational values, specialised to the
non-negative normal range that `u32` inputs produce; filesystem effects are
modelled by explicit success/failure parameters.
-/

namespace Storyteller

/-! ## IEEE-754 binary32 model

The source computes `(x as f32 * C) as u32` for `x : u32` and literals
`C ∈ {0.40_f32, 0.70_f32, 0.60_f32}`.  Each literal is exactly a dyadic
rational `c / 2^kc` (its binary32 value).  We model the conversion
`x as f32` (round-to-nearest-even to 24 bits of mantissa) and the product's
rounding and `u32` truncation exactly, using only natural-number arithmetic.
All values involved are non-negative and far inside the normal finite range
of binary32, so neither subnormals nor overflow/NaN can occur. -/

/-- Structurally recursive `⌊log₂⌋` helper (the first argument is fuel; the
recursion halves the value, so any fuel at least `log₂ n` is enough). -/
def log2Aux : ℕ → ℕ → ℕ
  | 0, _ => 0
  | fuel + 1, n => if 2 ≤ n then log2Aux fuel (n / 2) + 1 else 0

/-- `⌊log₂ n⌋` (and `0` for `n = 0`), defined by structural recursion so that
the kernel can evaluate it on concrete inputs.  `64` halvings cover every
value below `2^64`; all inputs fed to it here come from `u32` values and
`u32 × f32-literal` mantissa products, which are below `2^56`. -/
def nlog2 (n : ℕ) : ℕ := log2Aux 64 n

/-- Round `n / 2^t` to the nearest integer, ties to even
(the IEEE-754 default rounding of a mantissa). -/
def rne2 (n t : ℕ) : ℕ :=
  let q := n / 2 ^ t
  let r := n % 2 ^ t
  if 2 * r < 2 ^ t then q
  else if 2 ^ t < 2 * r then q + 1
  else if q % 2 = 0 then q else q + 1

/-- The exact value of `x as f32` for `x : u32` (a natural number `< 2^32`).
Naturals below `2^24` are exactly representable; larger ones are rounded to
24 mantissa bits (round-to-nearest-even).  The result is always a natural
number because the exponent is non-negative. -/
def f32_of_u32 (x : ℕ) : ℕ :=
  if x < 2 ^ 24 then x
  else rne2 x (nlog2 x - 23) * 2 ^ (nlog2 x - 23)

/-- `⌊xf * (c / 2^kc)⌋` where the product is first rounded to binary32
(round-to-nearest-even, 24-bit mantissa) and then truncated toward zero by
Rust's `as u32` cast.  `xf` is the (integer) exact value of the `f32` left
operand; `c / 2^kc` is the exact value of the `f32` literal. -/
def f32_mul_floor (xf c kc : ℕ) : ℕ :=
  if xf = 0 then 0
  else
    let n := xf * c
    let L := nlog2 n
    let m := if L ≤ 23 then n * 2 ^ (23 - L) else rne2 n (L - 23)
    if kc + 23 ≤ L then m * 2 ^ (L - kc - 23) else m / 2 ^ (kc + 23 - L)

/-- `(img_h as f32 * 0.40) as u32` from the seated branch of `region_to_rect`.
The binary32 value of the literal `0.40_f32` is exactly `13421773 / 2^25`. -/
def mul040_u32 (h : ℕ) : ℕ := f32_mul_floor (f32_of_u32 h) 13421773 25

/-- `(img_h as f32 * 0.70) as u32` from the background branch of
`region_to_rect`.  `0.70_f32` is exactly `11744051 / 2^24`. -/
def mul070_u32 (h : ℕ) : ℕ := f32_mul_floor (f32_of_u32 h) 11744051 24

/-- `(v as f32 * 0.60) as u32` (`scale` in the background branch of
`region_to_rect`).  `0.60_f32` is exactly `10066330 / 2^24`. -/
def mul060_u32 (v : ℕ) : ℕ := f32_mul_floor (f32_of_u32 v) 10066330 24

/-! ## Region vocabulary (`llm_parser.rs`) -/

/-- `CharacterRegion` from `llm_parser.rs`: where a character is positioned in
the scene, with `other` as the fallback for unrecognized values. -/
inductive CharacterRegion where
  | left | center | right
  | leftSeated | centerSeated | rightSeated
  | leftBackground | centerBackground | rightBackground
  | offScreen
  | other (s : String)
  deriving DecidableEq, Repr

/-- Model of Rust `str::to_lowercase` restricted to its ASCII action
(`Char.toLower` maps `A`–`Z` to `a`–`z` and leaves everything else alone;
every string in the compositor's vocabulary is ASCII). -/
def rust_lowercase (s : String) : String := ⟨s.data.map Char.toLower⟩

/-- One character of leading/trailing whitespace as trimmed by Rust
`str::trim` (ASCII subset of `char::is_whitespace`). -/
def isWsChar (c : Char) : Bool := c = ' ' || c = '\t' || c = '\n' || c = '\r'

/-- Model of Rust `str::trim`: drop whitespace from both ends. -/
def rust_trim (s : String) : String :=
  ⟨((s.data.dropWhile isWsChar).reverse.dropWhile isWsChar).reverse⟩

/-- `CharacterRegion::from_str_loose` from `llm_parser.rs`: lowercase, trim,
then match against the known vocabulary (`-`, `_` and fused spellings);
anything else becomes `other` holding the normalized string. -/
def from_str_loose (s : String) : CharacterRegion :=
  let t := rust_trim (rust_lowercase s)
  if t = "left" then .left
  else if t = "center" then .center
  else if t = "right" then .right
  else if t = "left-seated" ∨ t = "left_seated" ∨ t = "leftseated" then .leftSeated
  else if t = "center-seated" ∨ t = "center_seated" ∨ t = "centerseated" then .centerSeated
  else if t = "right-seated" ∨ t = "right_seated" ∨ t = "rightseated" then .rightSeated
  else if t = "left-background" ∨ t = "left_background" ∨ t = "leftbackground" then .leftBackground
  else if t = "center-background" ∨ t = "center_background" ∨ t = "centerbackground" then .centerBackground
  else if t = "right-background" ∨ t = "right_background" ∨ t = "rightbackground" then .rightBackground
  else if t = "off-screen" ∨ t = "off_screen" ∨ t = "offscreen" then .offScreen
  else .other t

/-- `CharacterRegion::is_seated` from `llm_parser.rs`. -/
def CharacterRegion.is_seated : CharacterRegion → Bool
  | .leftSeated | .centerSeated | .rightSeated => true
  | _ => false

/-! ## Region → rectangle (`mask_generator.rs`) -/

/-- `Rect` from `mask_generator.rs`: a pixel rectangle, all fields `u32`. -/
structure Rect where
  x : ℕ
  y : ℕ
  w : ℕ
  h : ℕ
  deriving DecidableEq, Repr

/-- `region_to_rect` from `mask_generator.rs`: convert a region string to a
pixel rectangle for the given image dimensions.  `third_w = img_w / 3`
(integer division); the right column absorbs the rounding remainder;
seated rectangles start at `(img_h as f32 * 0.40) as u32`; background
rectangles are the inner 60% (by f32 scaling) of the top-70% zone of their
column, centered.  `u32` subtractions that cannot underflow for any `u32`
input (`img_h - top_offset`, `col_w - inner_w`, `zone_h - inner_h`,
`img_w - third_w * 2`) are `Nat` subtraction. -/
def region_to_rect (region : String) (img_w img_h : ℕ) : Option Rect :=
  let rg := from_str_loose region
  let third_w := img_w / 3
  match rg with
  | .offScreen => none
  | .other _ => none
  | _ =>
    let colPair : ℕ × ℕ :=
      match rg with
      | .left | .leftSeated | .leftBackground => (0, third_w)
      | .center | .centerSeated | .centerBackground => (third_w, third_w)
      | _ => (third_w * 2, img_w - third_w * 2)
    let col_x := colPair.1
    let col_w := colPair.2
    match rg with
    | .left | .center | .right =>
      some ⟨col_x, 0, col_w, img_h⟩
    | .leftSeated | .centerSeated | .rightSeated =>
      let top_offset := mul040_u32 img_h
      some ⟨col_x, top_offset, col_w, img_h - top_offset⟩
    | _ =>
      let zone_h := mul070_u32 img_h
      let inner_w := mul060_u32 col_w
      let inner_h := mul060_u32 zone_h
      some ⟨col_x + (col_w - inner_w) / 2, (zone_h - inner_h) / 2, inner_w, inner_h⟩

/-! ## Raster compositor (`mask_generator.rs`) -/

/-- `MaskCharacter` from `mask_generator.rs`: one character's mask request. -/
structure MaskCharacter where
  name : String
  region : String
  color_index : ℕ
  deriving DecidableEq, Repr

/-- `MASK_COLORS` from `mask_generator.rs`: red, blue, green (RGB triples). -/
def MASK_COLORS : List (ℕ × ℕ × ℕ) := [(255, 0, 0), (0, 0, 255), (0, 255, 0)]

/-- One guarded triple write of `fill_rect`'s inner loop body: the source
checks `offset + 2 < buffer.len()` before performing the three byte stores. -/
def writeRGB (buffer : List ℕ) (offset : ℕ) (color : ℕ × ℕ × ℕ) : List ℕ :=
  if offset + 2 < buffer.length then
    ((buffer.set offset color.1).set (offset + 1) color.2.1).set (offset + 2) color.2.2
  else buffer

/-- `fill_rect` from `mask_generator.rs`: fill a rectangle in the RGB buffer
with a solid color.  `stride = (img_width * 3) as usize` is a `u32`
multiplication, hence the `% 2^32`; row and offset arithmetic is `usize`
(it cannot reach `2^64` for any buffer that exists in memory, so it is
plain `Nat` arithmetic here). -/
def fill_rect (buffer : List ℕ) (img_width : ℕ) (rect : Rect) (color : ℕ × ℕ × ℕ) :
    List ℕ :=
  let stride := img_width * 3 % 2 ^ 32
  (List.range' rect.y rect.h).foldl (fun buf row =>
    let row_start := row * stride + rect.x * 3
    (List.range rect.w).foldl (fun buf2 col =>
      writeRGB buf2 (row_start + col * 3) color) buf) buffer

/-- A single Rust slice index-assignment `buffer[i] = v`: in-bounds stores
succeed, an out-of-bounds store is a panic (`none`). -/
def setChecked (buffer : List ℕ) (i v : ℕ) : Option (List ℕ) :=
  if i < buffer.length then some (buffer.set i v) else none

/-- The inner loop body of `fill_rect` with every buffer store modelled as a
panicking Rust index-assignment (`setChecked`); `none` is a panic. -/
def writeRGBChecked (buffer : List ℕ) (offset : ℕ) (color : ℕ × ℕ × ℕ) :
    Option (List ℕ) :=
  if offset + 2 < buffer.length then do
    let b0 ← setChecked buffer offset color.1
    let b1 ← setChecked b0 (offset + 1) color.2.1
    setChecked b1 (offset + 2) color.2.2
  else some buffer

/-- `fill_rect` with panicking index-assignments (`none` = a panic escaped
the loops).  Identical loop structure to `fill_rect`. -/
def fill_rect_checked (buffer : List ℕ) (img_width : ℕ) (rect : Rect)
    (color : ℕ × ℕ × ℕ) : Option (List ℕ) :=
  let stride := img_width * 3 % 2 ^ 32
  (List.range' rect.y rect.h).foldlM (fun buf row =>
    let row_start := row * stride + rect.x * 3
    (List.range rect.w).foldlM (fun buf2 col =>
      writeRGBChecked buf2 (row_start + col * 3) color) buf) buffer

/-- `generate_mask_buffer` from `mask_generator.rs`: all-black RGB buffer of
`(width * height) * 3` bytes (the pixel count is a `u32` product, hence
`% 2^32`), then one fill per character, skipping out-of-range color indices
and unresolvable regions; returns the buffer and the drawn count. -/
def generate_mask_buffer (characters : List MaskCharacter) (width height : ℕ) :
    List ℕ × ℕ :=
  let pixel_count := width * height % 2 ^ 32
  characters.foldl (fun acc ch =>
    if 3 ≤ ch.color_index then acc
    else
      let color := MASK_COLORS.getD ch.color_index (0, 0, 0)
      match region_to_rect ch.region width height with
      | some rect => (fill_rect acc.1 width rect color, acc.2 + 1)
      | none => acc)
    (List.replicate (pixel_count * 3) 0, 0)

/-! ## Checksums (`mask_generator.rs`) -/

/-- One shift-xor step of the CRC-32 table construction
(`c = if c & 1 != 0 then 0xEDB88320 ^ (c >> 1) else c >> 1`). -/
def crcStep (c : ℕ) : ℕ :=
  if c % 2 = 1 then 0xEDB88320 ^^^ (c / 2) else c / 2

/-- Entry `n` of the CRC-32 table built at the top of `crc32`: eight
shift-xor steps applied to `n`. -/
def crcEntry (n : ℕ) : ℕ := crcStep^[8] n

/-- `crc32` from `mask_generator.rs`: standard CRC-32 (reversed polynomial
`0xEDB88320`), all-ones initial value, final inversion (the source inverts
with `crc ^ 0xFFFF_FFFF`; `& 0xFF` is `% 256` and `>> 8` is `/ 2^8`). -/
def crc32 (data : List ℕ) : ℕ :=
  (data.foldl (fun crc b => crcEntry ((crc ^^^ b) % 256) ^^^ crc / 2 ^ 8)
    0xFFFFFFFF) ^^^ 0xFFFFFFFF

/-- `adler32` from `mask_generator.rs`: `a` starts at 1 and `b` at 0, each
byte updates `a = (a + byte) % 65521` then `b = (b + a) % 65521`; the result
is `(b << 16) | a`. -/
def adler32 (data : List ℕ) : ℕ :=
  let p := data.foldl
    (fun (ab : ℕ × ℕ) byte =>
      ((ab.1 + byte) % 65521, (ab.2 + (ab.1 + byte) % 65521) % 65521))
    (1, 0)
  (p.2 <<< 16) ||| p.1

/-! ## PNG encoding (`mask_generator.rs`) -/

/-- Big-endian 4-byte serialization of the low 32 bits of `n`
(`u32::to_be_bytes`; the digit extraction itself performs the `as u32`
truncation of a wider value). -/
def be32 (n : ℕ) : List ℕ :=
  [n / 2 ^ 24 % 256, n / 2 ^ 16 % 256, n / 2 ^ 8 % 256, n % 256]

/-- Little-endian 2-byte serialization of the low 16 bits of `n`
(`u16::to_le_bytes`). -/
def le16 (n : ℕ) : List ℕ := [n % 256, n / 2 ^ 8 % 256]

/-- The fixed 8-byte PNG signature. -/
def pngSignature : List ℕ := [137, 80, 78, 71, 13, 10, 26, 10]

/-- The ASCII bytes of the chunk tag IHDR. -/
def ihdrType : List ℕ := [73, 72, 68, 82]

/-- The ASCII bytes of the chunk tag IDAT. -/
def idatType : List ℕ := [73, 68, 65, 84]

/-- The ASCII bytes of the chunk tag IEND. -/
def iendType : List ℕ := [73, 69, 78, 68]

/-- `write_png_chunk` from `mask_generator.rs`: append the 4-byte big-endian
data length (`data.len() as u32`), the 4-byte tag, the data, and the 4-byte
big-endian CRC-32 of tag-then-data. -/
def write_png_chunk (out : List ℕ) (chunk_type data : List ℕ) : List ℕ :=
  out ++ be32 data.length ++ chunk_type ++ data ++ be32 (crc32 (chunk_type ++ data))

/-- The scanline stream built inside `encode_png`: for each row `y`, a filter
byte `0` followed by the `width * 3` bytes `buffer[y*row_bytes ..
y*row_bytes + row_bytes]` (the accumulating loop of the source). -/
def raw_scanlines (buffer : List ℕ) (width height : ℕ) : List ℕ :=
  let row_bytes := width * 3
  (List.range height).foldl
    (fun acc y => acc ++ 0 :: ((buffer.drop (y * row_bytes)).take row_bytes)) []

/-- `raw_data.chunks(65535)`, with explicit fuel (first argument) so the
kernel can evaluate it; `chunksOf65535` passes the list length as fuel,
which is enough since every step consumes at least one element. -/
def chunksOfAux : ℕ → List ℕ → List (List ℕ)
  | 0, _ => []
  | _ + 1, [] => []
  | fuel + 1, a :: l => (a :: l).take 65535 :: chunksOfAux fuel ((a :: l).drop 65535)

/-- `raw_data.chunks(65535)` from `encode_png`: split into blocks of at most
65535 bytes (the empty list yields no blocks, exactly like Rust `chunks`). -/
def chunksOf65535 (l : List ℕ) : List (List ℕ) := chunksOfAux l.length l

/-- One stored block as emitted by the loop in `encode_png`: marker byte
(`0x01` if final else `0x00`), `chunk.len() as u16` little-endian, its
bitwise complement (`!len`, i.e. `65535 - len` on 16 bits) little-endian,
then the raw chunk bytes. -/
def stored_block (is_final : Bool) (chunk : List ℕ) : List ℕ :=
  (if is_final then 1 else 0) ::
    (le16 (chunk.length % 2 ^ 16) ++ le16 (65535 - chunk.length % 2 ^ 16) ++ chunk)

/-- The block-emitting loop of `encode_png` (`for (i, chunk) in
chunks.iter().enumerate()`): `i` is the running index, `total` the block
count; the final-block flag is `i == total - 1`. -/
def zlib_body_aux (total : ℕ) : ℕ → List (List ℕ) → List ℕ
  | _, [] => []
  | i, c :: cs => stored_block (i == total - 1) c ++ zlib_body_aux total (i + 1) cs

/-- The zlib container built inside `encode_png`: header bytes `0x78 0x01`,
the stored blocks, then the big-endian Adler-32 of the unsplit payload. -/
def zlib_stream (raw_data : List ℕ) : List ℕ :=
  let chunks := chunksOf65535 raw_data
  0x78 :: 0x01 :: (zlib_body_aux chunks.length 0 chunks ++ be32 (adler32 raw_data))

/-- `encode_png` from `mask_generator.rs`: signature, IHDR chunk (big-endian
width and height, bit depth 8, color type 2, compression 0, filter 0,
interlace 0), IDAT chunk holding the zlib container around the scanline
stream, and an empty IEND chunk. -/
def encode_png (buffer : List ℕ) (width height : ℕ) : List ℕ :=
  let png0 := pngSignature
  let ihdr := be32 width ++ be32 height ++ [8, 2, 0, 0, 0]
  let png1 := write_png_chunk png0 ihdrType ihdr
  let raw_data := raw_scanlines buffer width height
  let zlib := zlib_stream raw_data
  let png2 := write_png_chunk png1 idatType zlib
  write_png_chunk png2 iendType []

/-! ## High-level API (`mask_generator.rs`) -/

/-- `MaskResult` from `mask_generator.rs`. -/
structure MaskResult where
  path : String
  width : ℕ
  height : ℕ
  regions_drawn : ℕ
  deriving DecidableEq, Repr

/-- `generate_mask` from `mask_generator.rs`.  The two filesystem effects are
modelled by explicit outcome flags: `create_dir_ok` is whether
`create_dir_all` succeeds, `write_ok` whether the final `fs::write`
succeeds; `now_millis` stands for the timestamp used by the default
filename; path joining is modelled with a `/` separator. -/
def generate_mask (characters : List MaskCharacter) (width height : ℕ)
    (output_dir : String) (filename : Option String)
    (create_dir_ok write_ok : Bool) (now_millis : ℕ) : Except String MaskResult :=
  if !create_dir_ok then
    Except.error "Failed to create mask output directory"
  else
    let br := generate_mask_buffer characters width height
    let _png_data := encode_png br.1 width height
    let fname := filename.getD ("mask_" ++ toString now_millis ++ ".png")
    let output_path := output_dir ++ "/" ++ fname
    if !write_ok then Except.error "Failed to write mask PNG"
    else Except.ok ⟨output_path, width, height, br.2⟩

/-! ## Reference stored-block zlib decoder (spec side)

A standards-compliant inflate/zlib decoder restricted to stored (BTYPE = 00)
blocks, written from the container format's specification: check the 2-byte
header (compression method 8, header checksum divisible by 31, no preset
dictionary), then read blocks — a marker byte whose low bit is the final
flag and whose next two bits must be 00, a 16-bit little-endian length, its
16-bit complement (their sum must be 0xFFFF), and that many literal bytes —
until the final block, then check the 4-byte big-endian Adler-32 trailer
against the decoded output. -/

/-- Block-reading loop of the reference decoder; the first argument is fuel
(each block consumes at least five input bytes).  Returns the decoded bytes
and the unconsumed remainder of the input. -/
def inflate_stored : ℕ → List ℕ → Option (List ℕ × List ℕ)
  | 0, _ => none
  | fuel + 1, m :: l0 :: l1 :: n0 :: n1 :: rest =>
    if m / 2 % 4 ≠ 0 then none
    else if l0 + 256 * l1 + (n0 + 256 * n1) ≠ 65535 then none
    else
      let len := l0 + 256 * l1
      if rest.length < len then none
      else
        let dataPart := rest.take len
        let remPart := rest.drop len
        if m % 2 = 1 then some (dataPart, remPart)
        else
          match inflate_stored fuel remPart with
          | some dr => some (dataPart ++ dr.1, dr.2)
          | none => none
  | _ + 1, _ => none

/-- The reference zlib decoder: header checks, stored blocks, Adler check.
`none` is a decoding error.  The input must be consumed exactly (blocks,
then a 4-byte trailer, nothing after). -/
def zlib_decode (s : List ℕ) : Option (List ℕ) :=
  match s with
  | cmf :: flg :: rest =>
    if cmf % 16 ≠ 8 then none
    else if (cmf * 256 + flg) % 31 ≠ 0 then none
    else if flg / 32 % 2 ≠ 0 then none
    else
      match inflate_stored (rest.length + 1) rest with
      | some dr =>
        match dr.2 with
        | [a3, a2, a1, a0] =>
          if a3 * 2 ^ 24 + a2 * 2 ^ 16 + a1 * 2 ^ 8 + a0 = adler32 dr.1 then
            some dr.1
          else none
        | _ => none
      | none => none
  | _ => none

/-! ## Spec-side descriptions (written from the specification's words, to be
compared with the source-side definitions above) -/

/-- Spec side: chunk serialization as the specification words it — 4-byte
big-endian data length, 4-byte tag, data bytes, 4-byte big-endian CRC over
tag-then-data. -/
def spec_chunk (tag data : List ℕ) : List ℕ :=
  be32 data.length ++ tag ++ data ++ be32 (crc32 (tag ++ data))

/-- Spec side: the whole PNG as the specification words it — signature, IHDR
chunk with the 13 data bytes (big-endian width, big-endian height, bit
depth 8, truecolor 2, compression 0, filter 0, interlace 0), one IDAT chunk
holding the zlib container, and an IEND chunk with empty data. -/
def spec_png (buffer : List ℕ) (width height : ℕ) : List ℕ :=
  pngSignature ++
    spec_chunk ihdrType (be32 width ++ be32 height ++ [8, 2, 0, 0, 0]) ++
    spec_chunk idatType (zlib_stream (raw_scanlines buffer width height)) ++
    spec_chunk iendType []

/-- Spec side: the stored-block framing as the (amended) claim words it —
for each block a one-byte marker whose LOW bit is set only on the final
block, the block length as unsigned 16-bit little-endian, the
one's-complement of that length (`65535 - length`) little-endian, then the
raw block bytes; blocks in order. -/
def spec_stored_blocks : List (List ℕ) → List ℕ
  | [] => []
  | [b] =>
    1 :: (b.length % 256) :: (b.length / 256 % 256) ::
      ((65535 - b.length) % 256) :: ((65535 - b.length) / 256 % 256) :: b
  | b :: b2 :: bs =>
    0 :: (b.length % 256) :: (b.length / 256 % 256) ::
      ((65535 - b.length) % 256) :: ((65535 - b.length) / 256 % 256) ::
      (b ++ spec_stored_blocks (b2 :: bs))

/-- Spec side: the scanline stream as the claim words it — for each row, a
filter byte 0 followed by that row's `width * 3` bytes, rows top-to-bottom. -/
def spec_scanlines (buffer : List ℕ) (width height : ℕ) : List ℕ :=
  ((List.range height).map
    (fun y => 0 :: ((buffer.drop (y * (width * 3))).take (width * 3)))).flatten

/-- Spec side: the number of valid mask inputs — characters whose color slot
is within the 3-entry palette and whose region resolves to a rectangle. -/
def spec_valid_count (characters : List MaskCharacter) (width height : ℕ) : ℕ :=
  (characters.filter
    (fun ch => decide (ch.color_index < 3) && (region_to_rect ch.region width height).isSome)).length

/-- Spec side: the RGB triple a buffer holds at pixel index `i` (bytes
`3*i`, `3*i+1`, `3*i+2`, out-of-range bytes read as 0, i.e. black). -/
def tripleAt (buf : List ℕ) (i : ℕ) : ℕ × ℕ × ℕ :=
  (buf.getD (3 * i) 0, buf.getD (3 * i + 1) 0, buf.getD (3 * i + 2) 0)

/-! ## Generic helpers -/

/-- Balanced-recursion bounded checker: `ballCheck p fuel a b = true` means
`p` holds on `[a, b)`.  The balanced splitting keeps kernel evaluation depth
logarithmic in the interval size. -/
def ballCheck (p : ℕ → Bool) : ℕ → ℕ → ℕ → Bool
  | 0, _, _ => false
  | fuel + 1, a, b =>
    if b ≤ a then true
    else if a + 1 = b then p a
    else ballCheck p fuel a ((a + b) / 2) && ballCheck p fuel ((a + b) / 2) b

theorem ballCheck_sound (p : ℕ → Bool) :
    ∀ fuel a b, ballCheck p fuel a b = true → ∀ n, a ≤ n → n < b → p n = true := by
  intro fuel
  induction fuel with
  | zero => intro a b hchk; simp [ballCheck] at hchk
  | succ k ih =>
    intro a b hchk n han hnb
    rw [ballCheck] at hchk
    by_cases hba : b ≤ a
    · omega
    · simp only [if_neg hba] at hchk
      by_cases hone : a + 1 = b
      · simp only [if_pos hone] at hchk
        have : n = a := by omega
        rwa [this]
      · simp only [if_neg hone, Bool.and_eq_true] at hchk
        rcases Nat.lt_or_ge n ((a + b) / 2) with hlt | hge
        · exact ih a ((a + b) / 2) hchk.1 n han hlt
        · exact ih ((a + b) / 2) b hchk.2 n hge hnb

theorem foldlM_option_eq_foldl {α β : Type} (f : β → α → β) (g : β → α → Option β)
    (hfg : ∀ b a, g b a = some (f b a)) :
    ∀ (l : List α) (b : β), l.foldlM g b = some (l.foldl f b) := by
  intro l
  induction l with
  | nil => intro b; rfl
  | cons x xs ih =>
    intro b
    simp only [List.foldlM, List.foldl, hfg, Option.bind_eq_bind, Option.some_bind]
    exact ih (f b x)

theorem foldl_preserves {α β : Type} {P : β → Prop} (f : β → α → β)
    (hstep : ∀ b a, P b → P (f b a)) :
    ∀ (l : List α) (b : β), P b → P (l.foldl f b) := by
  intro l
  induction l with
  | nil => intro b hb; exact hb
  | cons x xs ih => intro b hb; exact ih (f b x) (hstep b x hb)

theorem foldl_append_eq_flatten {α β : Type} (f : α → List β) :
    ∀ (l : List α) (init : List β),
      l.foldl (fun acc x => acc ++ f x) init = init ++ (l.map f).flatten := by
  intro l
  induction l with
  | nil => intro init; simp
  | cons x xs ih => intro init; simp [ih]

/-! ## Bounded facts about the f32 geometry arithmetic

The three facts below are verified exhaustively over the canvas range the
application enforces (the Tauri command rejects dimensions outside 1–4096).
Outside that range the f32 rounding genuinely departs from the real-valued
formulas (see the counterexample at height 10485762). -/

set_option maxHeartbeats 4000000 in
/-- For every height up to 4096, the seated top offset
`(h as f32 * 0.40) as u32` equals `⌊h * 0.40⌋ = 2 * h / 5` exactly. -/
theorem mul040_eq_floor (h : ℕ) (hle : h ≤ 4096) : mul040_u32 h = 2 * h / 5 := by
  have hb : ballCheck (fun n => decide (mul040_u32 n = 2 * n / 5)) 16 0 4097 = true := by
    decide
  exact of_decide_eq_true (ballCheck_sound _ 16 0 4097 hb h (Nat.zero_le _) (by omega))

set_option maxHeartbeats 4000000 in
/-- For every height in 3–4096, the background zone height
`(h as f32 * 0.70) as u32` lies between 2 and 2867. -/
theorem mul070_range (h : ℕ) (h3 : 3 ≤ h) (hle : h ≤ 4096) :
    2 ≤ mul070_u32 h ∧ mul070_u32 h ≤ 2867 := by
  have hb : ballCheck
      (fun n => decide (2 ≤ mul070_u32 n ∧ mul070_u32 n ≤ 2867)) 16 3 4097 = true := by
    decide
  exact of_decide_eq_true (ballCheck_sound _ 16 3 4097 hb h h3 (by omega))

set_option maxHeartbeats 4000000 in
/-- For every value in 2–2867 (covering both the column widths produced by
canvas widths 6–4096 and the zone heights produced by `mul070_u32`), the
inner 60% width `mul060_u32 c` is at least 1. -/
theorem mul060_pos (c : ℕ) (h2 : 2 ≤ c) (hle : c ≤ 2867) : 1 ≤ mul060_u32 c := by
  have hb : ballCheck (fun n => decide (1 ≤ mul060_u32 n)) 16 2 2868 = true := by
    decide
  exact of_decide_eq_true (ballCheck_sound _ 16 2 2868 hb c h2 (by omega))

/-- For every height in 3–4096, the background inner height
`mul060_u32 (mul070_u32 h)` is at least 1. -/
theorem mul060_mul070_pos (h : ℕ) (h3 : 3 ≤ h) (hle : h ≤ 4096) :
    1 ≤ mul060_u32 (mul070_u32 h) :=
  mul060_pos (mul070_u32 h) (mul070_range h h3 hle).1 (mul070_range h h3 hle).2

/-! ## Unfolding lemmas for region_to_rect -/

theorem region_to_rect_of_left {s : String} (hs : from_str_loose s = .left)
    (w h : ℕ) : region_to_rect s w h = some ⟨0, 0, w / 3, h⟩ := by
  simp [region_to_rect, hs]

theorem region_to_rect_of_center {s : String} (hs : from_str_loose s = .center)
    (w h : ℕ) : region_to_rect s w h = some ⟨w / 3, 0, w / 3, h⟩ := by
  simp [region_to_rect, hs]

theorem region_to_rect_of_right {s : String} (hs : from_str_loose s = .right)
    (w h : ℕ) : region_to_rect s w h = some ⟨w / 3 * 2, 0, w - w / 3 * 2, h⟩ := by
  simp [region_to_rect, hs]

theorem region_to_rect_of_leftSeated {s : String}
    (hs : from_str_loose s = .leftSeated) (w h : ℕ) :
    region_to_rect s w h = some ⟨0, mul040_u32 h, w / 3, h - mul040_u32 h⟩ := by
  simp [region_to_rect, hs]

theorem region_to_rect_of_centerSeated {s : String}
    (hs : from_str_loose s = .centerSeated) (w h : ℕ) :
    region_to_rect s w h = some ⟨w / 3, mul040_u32 h, w / 3, h - mul040_u32 h⟩ := by
  simp [region_to_rect, hs]

theorem region_to_rect_of_rightSeated {s : String}
    (hs : from_str_loose s = .rightSeated) (w h : ℕ) :
    region_to_rect s w h =
      some ⟨w / 3 * 2, mul040_u32 h, w - w / 3 * 2, h - mul040_u32 h⟩ := by
  simp [region_to_rect, hs]

theorem region_to_rect_of_leftBackground {s : String}
    (hs : from_str_loose s = .leftBackground) (w h : ℕ) :
    region_to_rect s w h =
      some ⟨(w / 3 - mul060_u32 (w / 3)) / 2,
            (mul070_u32 h - mul060_u32 (mul070_u32 h)) / 2,
            mul060_u32 (w / 3), mul060_u32 (mul070_u32 h)⟩ := by
  simp [region_to_rect, hs]

theorem region_to_rect_of_centerBackground {s : String}
    (hs : from_str_loose s = .centerBackground) (w h : ℕ) :
    region_to_rect s w h =
      some ⟨w / 3 + (w / 3 - mul060_u32 (w / 3)) / 2,
            (mul070_u32 h - mul060_u32 (mul070_u32 h)) / 2,
            mul060_u32 (w / 3), mul060_u32 (mul070_u32 h)⟩ := by
  simp [region_to_rect, hs]

theorem region_to_rect_of_rightBackground {s : String}
    (hs : from_str_loose s = .rightBackground) (w h : ℕ) :
    region_to_rect s w h =
      some ⟨w / 3 * 2 + (w - w / 3 * 2 - mul060_u32 (w - w / 3 * 2)) / 2,
            (mul070_u32 h - mul060_u32 (mul070_u32 h)) / 2,
            mul060_u32 (w - w / 3 * 2), mul060_u32 (mul070_u32 h)⟩ := by
  simp [region_to_rect, hs]

theorem region_to_rect_of_offScreen {s : String}
    (hs : from_str_loose s = .offScreen) (w h : ℕ) :
    region_to_rect s w h = none := by
  simp [region_to_rect, hs]

theorem region_to_rect_of_other {s t : String}
    (hs : from_str_loose s = .other t) (w h : ℕ) :
    region_to_rect s w h = none := by
  simp [region_to_rect, hs]

/-! ## Case-insensitivity helpers -/

theorem toLower_toLower (c : Char) : c.toLower.toLower = c.toLower := by
  by_cases h : c.toNat ≥ 65 ∧ c.toNat ≤ 90
  · have hv : (c.toNat + 32).isValidChar := by
      unfold Nat.isValidChar
      left
      omega
    have h1 : c.toLower = Char.ofNat (c.toNat + 32) := by
      unfold Char.toLower
      simp [h]
    have h2 : (Char.ofNat (c.toNat + 32)).toNat = c.toNat + 32 := by
      unfold Char.ofNat
      rw [dif_pos hv]
      rfl
    have h3 : ¬(c.toNat + 32 ≥ 65 ∧ c.toNat + 32 ≤ 90) := by omega
    rw [h1]
    unfold Char.toLower
    simp only [h2]
    rw [if_neg h3]
  · have h1 : c.toLower = c := by
      unfold Char.toLower
      simp [h]
    rw [h1, h1]

theorem rust_lowercase_idem (s : String) :
    rust_lowercase (rust_lowercase s) = rust_lowercase s := by
  simp [rust_lowercase, Function.comp_def, toLower_toLower]

theorem from_str_loose_lowercase (s : String) :
    from_str_loose (rust_lowercase s) = from_str_loose s := by
  unfold from_str_loose
  rw [rust_lowercase_idem]

theorem region_to_rect_congr {a b : String}
    (hab : from_str_loose a = from_str_loose b) (w h : ℕ) :
    region_to_rect a w h = region_to_rect b w h := by
  unfold region_to_rect
  rw [hab]

/-! ## Raster helpers: length preservation, checked writes, triple contents -/

theorem writeRGB_length (b : List ℕ) (o : ℕ) (c : ℕ × ℕ × ℕ) :
    (writeRGB b o c).length = b.length := by
  unfold writeRGB
  split <;> simp

theorem fill_rect_length (b : List ℕ) (wimg : ℕ) (r : Rect) (c : ℕ × ℕ × ℕ) :
    (fill_rect b wimg r c).length = b.length := by
  simp only [fill_rect]
  refine foldl_preserves (P := fun (x : List ℕ) => x.length = b.length) _ ?_ _ _ rfl
  intro buf row hbuf
  refine foldl_preserves (P := fun (x : List ℕ) => x.length = b.length) _ ?_ _ _ hbuf
  intro buf2 _col h2
  rw [writeRGB_length]
  exact h2

theorem writeRGBChecked_eq (b : List ℕ) (o : ℕ) (c : ℕ × ℕ × ℕ) :
    writeRGBChecked b o c = some (writeRGB b o c) := by
  unfold writeRGBChecked writeRGB
  by_cases hg : o + 2 < b.length
  · have h0 : o < b.length := by omega
    have h1 : o + 1 < b.length := by omega
    simp [if_pos hg, setChecked, h0, h1, hg]
  · simp [if_neg hg]

theorem fill_rect_checked_eq (b : List ℕ) (wimg : ℕ) (r : Rect) (c : ℕ × ℕ × ℕ) :
    fill_rect_checked b wimg r c = some (fill_rect b wimg r c) := by
  simp only [fill_rect_checked, fill_rect]
  exact foldlM_option_eq_foldl _ _
    (fun buf row => foldlM_option_eq_foldl _ _
      (fun b2 col => writeRGBChecked_eq b2 _ _) _ buf) _ b

theorem getD_set_ne (l : List ℕ) (j v n : ℕ) (h : j ≠ n) :
    (l.set j v).getD n 0 = l.getD n 0 := by
  rw [List.getD_eq_getD_get?, List.getD_eq_getD_get?, List.get?_set_ne _ _ h]

theorem getD_set_lt (l : List ℕ) (j v : ℕ) (h : j < l.length) :
    (l.set j v).getD j 0 = v := by
  rw [List.getD_eq_getD_get?, List.get?_set_eq_of_lt _ h]
  rfl

theorem tripleAt_writeRGB (b : List ℕ) (o : ℕ) (c : ℕ × ℕ × ℕ) (ho : o % 3 = 0)
    (i : ℕ) :
    tripleAt (writeRGB b o c) i = tripleAt b i ∨ tripleAt (writeRGB b o c) i = c := by
  unfold writeRGB
  by_cases hg : o + 2 < b.length
  · simp only [if_pos hg]
    by_cases hio : i = o / 3
    · right
      have e0 : 3 * i = o := by omega
      have l0 : o < b.length := by omega
      have l1 : o + 1 < (b.set o c.1).length := by simp; omega
      have l2 : o + 2 < ((b.set o c.1).set (o + 1) c.2.1).length := by simp; omega
      unfold tripleAt
      rw [e0]
      rw [getD_set_ne _ _ _ _ (by omega), getD_set_ne _ _ _ _ (by omega),
        getD_set_lt _ _ _ l0]
      rw [getD_set_ne _ _ _ _ (by omega), getD_set_lt _ _ _ l1]
      rw [getD_set_lt _ _ _ l2]
    · left
      unfold tripleAt
      rw [getD_set_ne _ _ _ _ (by omega), getD_set_ne _ _ _ _ (by omega),
        getD_set_ne _ _ _ _ (by omega), getD_set_ne _ _ _ _ (by omega),
        getD_set_ne _ _ _ _ (by omega), getD_set_ne _ _ _ _ (by omega),
        getD_set_ne _ _ _ _ (by omega), getD_set_ne _ _ _ _ (by omega),
        getD_set_ne _ _ _ _ (by omega)]
  · exact Or.inl (by rw [if_neg hg])

theorem tripleAt_fill_rect (b : List ℕ) (wimg : ℕ) (r : Rect) (c : ℕ × ℕ × ℕ)
    (hw : wimg * 3 < 2 ^ 32) (i : ℕ) :
    tripleAt (fill_rect b wimg r c) i = tripleAt b i ∨
      tripleAt (fill_rect b wimg r c) i = c := by
  simp only [fill_rect, Nat.mod_eq_of_lt hw]
  refine foldl_preserves
    (P := fun (buf : List ℕ) => ∀ j, tripleAt buf j = tripleAt b j ∨ tripleAt buf j = c) _
    ?_ _ b (fun j => Or.inl rfl) i
  intro buf row hbuf
  refine foldl_preserves
    (P := fun (buf : List ℕ) => ∀ j, tripleAt buf j = tripleAt b j ∨ tripleAt buf j = c) _
    ?_ _ buf hbuf
  intro buf2 col h2 j
  have halign : (row * (wimg * 3) + r.x * 3 + col * 3) % 3 = 0 := by
    have h' : row * (wimg * 3) = row * wimg * 3 := by ring
    rw [h']
    omega
  rcases tripleAt_writeRGB buf2 (row * (wimg * 3) + r.x * 3 + col * 3) c halign j
    with heq | hc
  · rw [heq]; exact h2 j
  · right; exact hc

theorem tripleAt_replicate_zero (n i : ℕ) :
    tripleAt (List.replicate n 0) i = (0, 0, 0) := by
  have hz : ∀ j, (List.replicate n (0 : ℕ)).getD j 0 = 0 := by
    intro j
    rcases Nat.lt_or_ge j n with hj | hj
    · rw [List.getD_eq_getElem _ _ (by simpa using hj)]
      simp
    · rw [List.getD_eq_default _ _ (by simpa using hj)]
  unfold tripleAt
  rw [hz, hz, hz]

/-! ## Buffer contents and drawn count -/

/-- Spec side: a pixel triple is black, or it is the palette color of some
listed character whose color slot is in range. -/
def black_or_palette_of (chars : List MaskCharacter) (t : ℕ × ℕ × ℕ) : Prop :=
  t = (0, 0, 0) ∨
    ∃ ch, ch ∈ chars ∧ ch.color_index < 3 ∧ t = MASK_COLORS.getD ch.color_index (0, 0, 0)

theorem generate_mask_buffer_triples_aux (width height : ℕ)
    (hw : width * 3 < 2 ^ 32) (chars0 : List MaskCharacter) :
    ∀ (cs : List MaskCharacter), (∀ ch ∈ cs, ch ∈ chars0) →
      ∀ (acc : List ℕ × ℕ), (∀ i, black_or_palette_of chars0 (tripleAt acc.1 i)) →
        ∀ i, black_or_palette_of chars0
          (tripleAt (cs.foldl (fun acc ch =>
            if 3 ≤ ch.color_index then acc
            else
              match region_to_rect ch.region width height with
              | some rect =>
                (fill_rect acc.1 width rect (MASK_COLORS.getD ch.color_index (0, 0, 0)),
                  acc.2 + 1)
              | none => acc) acc).1 i) := by
  intro cs
  induction cs with
  | nil => intro _ acc hacc i; exact hacc i
  | cons ch cs ih =>
    intro hsub acc hacc
    rw [List.foldl_cons]
    refine ih (fun x hx => hsub x (List.mem_cons_of_mem _ hx)) _ ?_
    by_cases hidx : 3 ≤ ch.color_index
    · simpa [if_pos hidx] using hacc
    · rw [if_neg hidx]
      cases hrtr : region_to_rect ch.region width height with
      | none => simpa using hacc
      | some rect =>
        intro i
        rcases tripleAt_fill_rect acc.1 width rect
            (MASK_COLORS.getD ch.color_index (0, 0, 0)) hw i with heq | hc
        · rw [heq]; exact hacc i
        · exact Or.inr ⟨ch, hsub ch (List.mem_cons_self _ _), by omega, hc⟩

theorem generate_mask_buffer_drawn_aux (width height : ℕ) :
    ∀ (cs : List MaskCharacter) (acc : List ℕ × ℕ),
      (cs.foldl (fun acc ch =>
        if 3 ≤ ch.color_index then acc
        else
          match region_to_rect ch.region width height with
          | some rect =>
            (fill_rect acc.1 width rect (MASK_COLORS.getD ch.color_index (0, 0, 0)),
              acc.2 + 1)
          | none => acc) acc).2 = acc.2 + spec_valid_count cs width height := by
  intro cs
  induction cs with
  | nil => intro acc; simp [spec_valid_count]
  | cons ch cs ih =>
    intro acc
    rw [List.foldl_cons]
    by_cases hidx : 3 ≤ ch.color_index
    · rw [if_pos hidx, ih]
      have hpred : (decide (ch.color_index < 3) &&
          (region_to_rect ch.region width height).isSome) = false := by
        simp [decide_eq_false (by omega : ¬ ch.color_index < 3)]
      simp [spec_valid_count, List.filter_cons, hpred]
    · rw [if_neg hidx]
      cases hrtr : region_to_rect ch.region width height with
      | none =>
        rw [ih]
        have hpred : (decide (ch.color_index < 3) &&
            (region_to_rect ch.region width height).isSome) = false := by
          simp [hrtr]
        simp [spec_valid_count, List.filter_cons, hpred]
      | some rect =>
        rw [ih]
        have hpred : (decide (ch.color_index < 3) &&
            (region_to_rect ch.region width height).isSome) = true := by
          simp [hrtr, decide_eq_true (by omega : ch.color_index < 3)]
        simp [spec_valid_count, List.filter_cons, hpred]
        omega

theorem generate_mask_buffer_snd (chars : List MaskCharacter) (width height : ℕ) :
    (generate_mask_buffer chars width height).2 = spec_valid_count chars width height := by
  unfold generate_mask_buffer
  rw [generate_mask_buffer_drawn_aux]
  simp

theorem generate_mask_buffer_triples (chars : List MaskCharacter) (width height : ℕ)
    (hw : width * 3 < 2 ^ 32) (i : ℕ) :
    black_or_palette_of chars (tripleAt (generate_mask_buffer chars width height).1 i) := by
  unfold generate_mask_buffer
  exact generate_mask_buffer_triples_aux width height hw chars chars
    (fun _ hx => hx) _ (fun j => Or.inl (tripleAt_replicate_zero _ j)) i

/-! ## Block-splitting and zlib framing lemmas -/

theorem chunksOfAux_flatten :
    ∀ (fuel : ℕ) (l : List ℕ), l.length ≤ fuel → (chunksOfAux fuel l).flatten = l := by
  intro fuel
  induction fuel with
  | zero =>
    intro l hl
    have : l = [] := List.length_eq_zero.mp (by omega)
    subst this
    rfl
  | succ f ih =>
    intro l hl
    cases l with
    | nil => rfl
    | cons a t =>
      rw [chunksOfAux, List.flatten_cons]
      have hlen : ((a :: t).drop 65535).length ≤ f := by
        rw [List.length_drop]
        simp only [List.length_cons]
        simp only [List.length_cons] at hl
        omega
      rw [ih _ hlen]
      exact List.take_append_drop _ _

theorem chunksOfAux_le :
    ∀ (fuel : ℕ) (l : List ℕ) (b : List ℕ), b ∈ chunksOfAux fuel l → b.length ≤ 65535 := by
  intro fuel
  induction fuel with
  | zero => intro l b hb; simp [chunksOfAux] at hb
  | succ f ih =>
    intro l b hb
    cases l with
    | nil => simp [chunksOfAux] at hb
    | cons a t =>
      rw [chunksOfAux] at hb
      rcases List.mem_cons.mp hb with hb | hb
      · subst hb
        simp
      · exact ih _ _ hb

theorem chunksOf65535_flatten (l : List ℕ) : (chunksOf65535 l).flatten = l :=
  chunksOfAux_flatten l.length l le_rfl

theorem chunksOf65535_le (l b : List ℕ) (hb : b ∈ chunksOf65535 l) :
    b.length ≤ 65535 :=
  chunksOfAux_le l.length l b hb

theorem chunksOf65535_ne_nil (l : List ℕ) (hl : l ≠ []) : chunksOf65535 l ≠ [] := by
  cases l with
  | nil => exact absurd rfl hl
  | cons a t =>
    unfold chunksOf65535
    simp only [List.length_cons]
    rw [chunksOfAux]
    exact List.cons_ne_nil _ _

theorem stored_block_eq (fin : Bool) (b : List ℕ) (hb : b.length ≤ 65535) :
    stored_block fin b =
      (if fin then 1 else 0) :: (b.length % 256) :: (b.length / 256 % 256) ::
        ((65535 - b.length) % 256) :: ((65535 - b.length) / 256 % 256) :: b := by
  have h1 : b.length % 65536 = b.length := Nat.mod_eq_of_lt (by omega)
  simp [stored_block, le16, h1]
  try omega

theorem zlib_body_eq :
    ∀ (cs : List (List ℕ)) (i total : ℕ), i + cs.length = total →
      (∀ b ∈ cs, b.length ≤ 65535) →
      zlib_body_aux total i cs = spec_stored_blocks cs := by
  intro cs
  induction cs with
  | nil => intro i total _ _; rfl
  | cons c cs ih =>
    intro i total htot hle
    cases cs with
    | nil =>
      have hfin : (i == total - 1) = true := by
        simp only [List.length_cons, List.length_nil] at htot
        simp
        omega
      rw [zlib_body_aux, hfin, zlib_body_aux,
        stored_block_eq true c (hle c (List.mem_cons_self _ _))]
      simp [spec_stored_blocks]
    | cons c2 cs2 =>
      have hfin : (i == total - 1) = false := by
        simp only [List.length_cons] at htot
        simp
        omega
      rw [zlib_body_aux, hfin,
        stored_block_eq false c (hle c (List.mem_cons_self _ _)),
        ih (i + 1) total (by simp only [List.length_cons] at htot ⊢; omega)
          (fun b hb => hle b (List.mem_cons_of_mem _ hb))]
      simp [spec_stored_blocks]

theorem zlib_stream_eq (raw : List ℕ) :
    zlib_stream raw =
      0x78 :: 0x01 :: (spec_stored_blocks (chunksOf65535 raw) ++ be32 (adler32 raw)) := by
  show 0x78 :: 0x01 ::
      (zlib_body_aux (chunksOf65535 raw).length 0 (chunksOf65535 raw) ++
        be32 (adler32 raw)) = _
  rw [zlib_body_eq (chunksOf65535 raw) 0 (chunksOf65535 raw).length (by omega)
    (chunksOf65535_le raw)]

/-! ## Adler-32 bounds and byte recombination -/

theorem adler_fold_bounds (data : List ℕ) :
    ∀ (ab : ℕ × ℕ), ab.1 < 65521 → ab.2 < 65521 →
      (data.foldl (fun (ab : ℕ × ℕ) byte =>
        ((ab.1 + byte) % 65521, (ab.2 + (ab.1 + byte) % 65521) % 65521)) ab).1 < 65521 ∧
      (data.foldl (fun (ab : ℕ × ℕ) byte =>
        ((ab.1 + byte) % 65521, (ab.2 + (ab.1 + byte) % 65521) % 65521)) ab).2 < 65521 := by
  induction data with
  | nil => intro ab h1 h2; exact ⟨h1, h2⟩
  | cons x xs ih =>
    intro ab h1 h2
    rw [List.foldl_cons]
    exact ih _ (Nat.mod_lt _ (by omega)) (Nat.mod_lt _ (by omega))

theorem adler32_lt (data : List ℕ) : adler32 data < 2 ^ 32 := by
  unfold adler32
  have hb := adler_fold_bounds data (1, 0) (by omega) (by omega)
  have h1 : (data.foldl (fun (ab : ℕ × ℕ) byte =>
      ((ab.1 + byte) % 65521, (ab.2 + (ab.1 + byte) % 65521) % 65521)) (1, 0)).1
      < 2 ^ 16 := by omega
  have h2 : (data.foldl (fun (ab : ℕ × ℕ) byte =>
      ((ab.1 + byte) % 65521, (ab.2 + (ab.1 + byte) % 65521) % 65521)) (1, 0)).2
      < 2 ^ 16 := by omega
  have := Nat.append_lt h1 h2
  norm_num at this ⊢
  exact this

theorem be32_recombine (n : ℕ) (h : n < 2 ^ 32) :
    n / 2 ^ 24 % 256 * 2 ^ 24 + n / 2 ^ 16 % 256 * 2 ^ 16 + n / 2 ^ 8 % 256 * 2 ^ 8 +
      n % 256 = n := by
  omega

/-! ## Decoder correctness -/

theorem spec_stored_blocks_length_ge :
    ∀ (cs : List (List ℕ)), cs.length ≤ (spec_stored_blocks cs).length := by
  intro cs
  induction cs with
  | nil => simp [spec_stored_blocks]
  | cons c cs ih =>
    cases cs with
    | nil => simp [spec_stored_blocks]
    | cons c2 cs2 =>
      rw [spec_stored_blocks]
      simp only [List.length_cons, List.length_append]
      simp only [List.length_cons] at ih
      omega

theorem inflate_stored_spec :
    ∀ (cs : List (List ℕ)) (fuel : ℕ) (tail : List ℕ), cs ≠ [] →
      (∀ b ∈ cs, b.length ≤ 65535) → cs.length ≤ fuel →
      inflate_stored fuel (spec_stored_blocks cs ++ tail) = some (cs.flatten, tail) := by
  intro cs
  induction cs with
  | nil => intro fuel tail hne _ _; exact absurd rfl hne
  | cons c cs ih =>
    intro fuel tail _ hle hfuel
    cases fuel with
    | zero => simp at hfuel
    | succ f =>
      have hc : c.length ≤ 65535 := hle c (List.mem_cons_self _ _)
      have e1 : c.length % 256 + 256 * (c.length / 256 % 256) = c.length := by omega
      have e2 : (65535 - c.length) % 256 + 256 * ((65535 - c.length) / 256 % 256) =
          65535 - c.length := by omega
      cases cs with
      | nil =>
        rw [spec_stored_blocks]
        simp only [List.cons_append]
        rw [inflate_stored]
        rw [e1, e2]
        rw [if_neg (by norm_num)]
        rw [if_neg (by omega)]
        rw [if_neg (by simp)]
        rw [if_pos (by norm_num)]
        rw [List.take_left' rfl, List.drop_left' rfl]
        simp
      | cons c2 cs2 =>
        rw [spec_stored_blocks]
        simp only [List.cons_append, List.append_assoc]
        rw [inflate_stored]
        rw [e1, e2]
        rw [if_neg (by norm_num)]
        rw [if_neg (by omega)]
        rw [if_neg (by simp)]
        rw [if_neg (by norm_num)]
        rw [List.take_left' rfl, List.drop_left' rfl]
        rw [ih f tail (List.cons_ne_nil _ _)
          (fun b hb => hle b (List.mem_cons_of_mem _ hb))
          (by simp only [List.length_cons] at hfuel ⊢; omega)]
        simp

theorem zlib_stream_decode (raw : List ℕ) (hne : raw ≠ []) :
    zlib_decode (zlib_stream raw) = some raw := by
  rw [zlib_stream_eq]
  have hcs_ne := chunksOf65535_ne_nil raw hne
  have hfuel : (chunksOf65535 raw).length ≤
      (spec_stored_blocks (chunksOf65535 raw) ++ be32 (adler32 raw)).length + 1 := by
    have := spec_stored_blocks_length_ge (chunksOf65535 raw)
    simp only [List.length_append]
    omega
  rw [zlib_decode]
  rw [if_neg (by norm_num), if_neg (by norm_num), if_neg (by norm_num)]
  rw [inflate_stored_spec (chunksOf65535 raw) _ (be32 (adler32 raw)) hcs_ne
    (chunksOf65535_le raw) hfuel]
  simp only [be32]
  rw [chunksOf65535_flatten]
  rw [if_pos (be32_recombine (adler32 raw) (adler32_lt raw))]

/-! ## Scanline stream shape and PNG assembly -/

theorem raw_scanlines_eq_spec (buffer : List ℕ) (width height : ℕ) :
    raw_scanlines buffer width height = spec_scanlines buffer width height := by
  unfold raw_scanlines spec_scanlines
  rw [foldl_append_eq_flatten]
  simp

theorem encode_png_eq (buffer : List ℕ) (width height : ℕ) :
    encode_png buffer width height = spec_png buffer width height := by
  simp [encode_png, write_png_chunk, spec_png, spec_chunk, List.append_assoc]

/-! ## Claim theorems -/

/-- Claim C1 (counterexample to the claim as stated): for the 1×1 image with
pixel bytes 5, 6, 7, the zlib container placed in the IDAT chunk is exactly
the bytes below; it consists of a single stored block, necessarily the final
one, whose marker byte (offset 2) is 0x01 — and bit 7 (the high bit) of
0x01 is clear.  The claim's words "high bit set only on the final block"
are therefore false of the code: the final-block flag is the LOW bit. -/
theorem C1_counterexample :
    zlib_stream (raw_scanlines [5, 6, 7] 1 1) =
      [120, 1, 1, 4, 0, 251, 255, 0, 5, 6, 7, 0, 38, 0, 19] ∧
    Nat.testBit 1 7 = false := by
  constructor <;> decide

/-- Claim C1 (amended: the block marker's LOW bit — not high bit — is set
only on the final block): for every pixel buffer and canvas size, the IDAT
chunk of encode_png holds the container [0x78, 0x01] ++ stored blocks ++
big-endian Adler-32 of the original unsplit payload, where the blocks are
the payload split into pieces of at most 65535 bytes, each emitted as a
marker byte (low bit set only on the final block), the 16-bit little-endian
length, the 16-bit little-endian one's-complement of the length, then the
raw bytes unmodified; the blocks concatenate back to the payload. -/
theorem C1_idat_container (buffer : List ℕ) (width height : ℕ) :
    encode_png buffer width height =
      pngSignature ++
        spec_chunk ihdrType (be32 width ++ be32 height ++ [8, 2, 0, 0, 0]) ++
        spec_chunk idatType
          (0x78 :: 0x01 ::
            (spec_stored_blocks (chunksOf65535 (raw_scanlines buffer width height)) ++
              be32 (adler32 (raw_scanlines buffer width height)))) ++
        spec_chunk iendType [] ∧
    (chunksOf65535 (raw_scanlines buffer width height)).flatten =
      raw_scanlines buffer width height ∧
    (∀ b ∈ chunksOf65535 (raw_scanlines buffer width height), b.length ≤ 65535) := by
  refine ⟨?_, chunksOf65535_flatten _, chunksOf65535_le _⟩
  rw [encode_png_eq]
  unfold spec_png
  rw [zlib_stream_eq]

/-- Claim C2: for every RGB buffer and canvas size, encode_png returns the
fixed 8-byte signature, the IHDR chunk whose 13 data bytes are big-endian
width, big-endian height, 8, 2, 0, 0, 0, one IDAT chunk holding the
container payload, and an empty IEND chunk, every chunk serialized as
4-byte big-endian data length, 4-byte tag, data, then 4-byte big-endian
CRC-32 of tag-then-data (spec_png / spec_chunk are the specification-side
descriptions). -/
theorem C2_png_layout (buffer : List ℕ) (width height : ℕ) :
    encode_png buffer width height = spec_png buffer width height :=
  encode_png_eq buffer width height

/-- Claim C3 (counterexample to the claim as stated): for the degenerate
zero-row canvas (height 0) the scanline payload is empty, the emitted
container is [0x78, 0x01] followed immediately by the Adler-32 trailer with
no stored block at all, and the reference decoder rejects it — decoding
does not reproduce the (empty) payload. -/
theorem C3_counterexample :
    raw_scanlines [] 5 0 = [] ∧
    zlib_stream [] = [120, 1, 0, 0, 0, 1] ∧
    zlib_decode [120, 1, 0, 0, 0, 1] = none := by
  refine ⟨by decide, by decide, by decide⟩

/-- Claim C3 (amended: for every payload with at least one row, i.e. a
nonempty scanline stream): decoding the zlib stream emitted by encode_png
with the reference stored-block decoder reproduces the original payload
exactly, and that payload is the filter byte 0 followed by the width*3 row
bytes, for each row top-to-bottom.  This covers payloads larger than 65535
bytes (multi-block framing) since buffer, width and height are arbitrary. -/
theorem C3_roundtrip (buffer : List ℕ) (width height : ℕ)
    (hne : raw_scanlines buffer width height ≠ []) :
    zlib_decode (zlib_stream (raw_scanlines buffer width height)) =
      some (raw_scanlines buffer width height) ∧
    raw_scanlines buffer width height = spec_scanlines buffer width height :=
  ⟨zlib_stream_decode _ hne, raw_scanlines_eq_spec buffer width height⟩

/-- Claim C3 witness: the roundtrip theorem applied at the concrete 1×1
image with pixel bytes 9, 8, 7. -/
theorem C3_roundtrip_witness :
    zlib_decode (zlib_stream (raw_scanlines [9, 8, 7] 1 1)) =
      some (raw_scanlines [9, 8, 7] 1 1) ∧
    raw_scanlines [9, 8, 7] 1 1 = spec_scanlines [9, 8, 7] 1 1 :=
  C3_roundtrip [9, 8, 7] 1 1 (by decide)

/-- Claim C4 (counterexample to the claim as stated): the space separator is
NOT accepted — "left seated" resolves to no rectangle while "left-seated"
resolves to one, so the two variants do not give the same result. -/
theorem C4_counterexample :
    region_to_rect "left seated" 512 768 = none ∧
    region_to_rect "left-seated" 512 768 = some ⟨0, 307, 170, 461⟩ := by
  refine ⟨by decide, by decide⟩

/-- Claim C4 (amended: the separator may be written as '-', '_' or omitted
— but not as a space): region_to_rect is invariant under lowercasing its
input (hence under any change of letter case), and for every compound
descriptor the '_'-separated and fused spellings resolve exactly like the
'-'-separated one, for every canvas size. -/
theorem C4_descriptor_variants :
    (∀ (s : String) (w h : ℕ),
      region_to_rect (rust_lowercase s) w h = region_to_rect s w h) ∧
    (∀ w h : ℕ,
      region_to_rect "left_seated" w h = region_to_rect "left-seated" w h ∧
      region_to_rect "leftseated" w h = region_to_rect "left-seated" w h ∧
      region_to_rect "center_seated" w h = region_to_rect "center-seated" w h ∧
      region_to_rect "centerseated" w h = region_to_rect "center-seated" w h ∧
      region_to_rect "right_seated" w h = region_to_rect "right-seated" w h ∧
      region_to_rect "rightseated" w h = region_to_rect "right-seated" w h ∧
      region_to_rect "left_background" w h = region_to_rect "left-background" w h ∧
      region_to_rect "leftbackground" w h = region_to_rect "left-background" w h ∧
      region_to_rect "center_background" w h = region_to_rect "center-background" w h ∧
      region_to_rect "centerbackground" w h = region_to_rect "center-background" w h ∧
      region_to_rect "right_background" w h = region_to_rect "right-background" w h ∧
      region_to_rect "rightbackground" w h = region_to_rect "right-background" w h ∧
      region_to_rect "off_screen" w h = region_to_rect "off-screen" w h ∧
      region_to_rect "offscreen" w h = region_to_rect "off-screen" w h) := by
  constructor
  · intro s w h
    exact region_to_rect_congr (from_str_loose_lowercase s) w h
  · intro w h
    refine ⟨?_, ?_, ?_, ?_, ?_, ?_, ?_, ?_, ?_, ?_, ?_, ?_, ?_, ?_⟩ <;>
      exact region_to_rect_congr (by decide) w h

/-- Claim C5 (counterexample to the claim as stated): on the 1×1 canvas
(width ≥ 1, height ≥ 1) the descriptor "left" resolves to a rectangle of
width 0, because the column width is the integer third 1 / 3 = 0. -/
theorem C5_counterexample :
    ∃ rect, region_to_rect "left" 1 1 = some rect ∧ rect.w = 0 :=
  ⟨⟨0, 0, 0, 1⟩, by decide, rfl⟩

/-- Claim C5 (amended: for canvases in the validated range with width ≥ 6
and height ≥ 3 — widths 1–5 give a zero-width column third or a zero-width
background inner rectangle, heights 1–2 a zero-height background inner
rectangle): every rectangle returned by region_to_rect has width ≥ 1 and
height ≥ 1.  The upper bound 4096 is the limit the Tauri command enforces
on canvas dimensions. -/
theorem C5_nonzero_dims (w h : ℕ) (hw6 : 6 ≤ w) (hw : w ≤ 4096) (hh3 : 3 ≤ h)
    (hh : h ≤ 4096) (s : String) (rect : Rect)
    (hr : region_to_rect s w h = some rect) : 1 ≤ rect.w ∧ 1 ≤ rect.h := by
  have hbgw : ∀ cw : ℕ, 2 ≤ cw → cw ≤ 1366 → 1 ≤ mul060_u32 cw :=
    fun cw hcw2 hcwle => mul060_pos cw hcw2 (by omega)
  have hbgh : 1 ≤ mul060_u32 (mul070_u32 h) := mul060_mul070_pos h hh3 hh
  cases hfs : from_str_loose s with
  | left =>
    rw [region_to_rect_of_left hfs] at hr
    injection hr with hr
    subst hr
    exact ⟨by show 1 ≤ w / 3; omega, by show 1 ≤ h; omega⟩
  | center =>
    rw [region_to_rect_of_center hfs] at hr
    injection hr with hr
    subst hr
    exact ⟨by show 1 ≤ w / 3; omega, by show 1 ≤ h; omega⟩
  | right =>
    rw [region_to_rect_of_right hfs] at hr
    injection hr with hr
    subst hr
    exact ⟨by show 1 ≤ w - w / 3 * 2; omega, by show 1 ≤ h; omega⟩
  | leftSeated =>
    rw [region_to_rect_of_leftSeated hfs] at hr
    injection hr with hr
    subst hr
    refine ⟨by show 1 ≤ w / 3; omega, ?_⟩
    show 1 ≤ h - mul040_u32 h
    rw [mul040_eq_floor h hh]
    omega
  | centerSeated =>
    rw [region_to_rect_of_centerSeated hfs] at hr
    injection hr with hr
    subst hr
    refine ⟨by show 1 ≤ w / 3; omega, ?_⟩
    show 1 ≤ h - mul040_u32 h
    rw [mul040_eq_floor h hh]
    omega
  | rightSeated =>
    rw [region_to_rect_of_rightSeated hfs] at hr
    injection hr with hr
    subst hr
    refine ⟨by show 1 ≤ w - w / 3 * 2; omega, ?_⟩
    show 1 ≤ h - mul040_u32 h
    rw [mul040_eq_floor h hh]
    omega
  | leftBackground =>
    rw [region_to_rect_of_leftBackground hfs] at hr
    injection hr with hr
    subst hr
    exact ⟨hbgw (w / 3) (by omega) (by omega), hbgh⟩
  | centerBackground =>
    rw [region_to_rect_of_centerBackground hfs] at hr
    injection hr with hr
    subst hr
    exact ⟨hbgw (w / 3) (by omega) (by omega), hbgh⟩
  | rightBackground =>
    rw [region_to_rect_of_rightBackground hfs] at hr
    injection hr with hr
    subst hr
    exact ⟨hbgw (w - w / 3 * 2) (by omega) (by omega), hbgh⟩
  | offScreen =>
    rw [region_to_rect_of_offScreen hfs] at hr
    exact absurd hr (by simp)
  | other t =>
    rw [region_to_rect_of_other hfs] at hr
    exact absurd hr (by simp)

/-- Claim C5 witness: the amended theorem applied to the 512×768 canvas and
the descriptor "left". -/
theorem C5_nonzero_dims_witness :
    1 ≤ (⟨0, 0, 170, 768⟩ : Rect).w ∧ 1 ≤ (⟨0, 0, 170, 768⟩ : Rect).h :=
  C5_nonzero_dims 512 768 (by omega) (by omega) (by omega) (by omega) "left"
    ⟨0, 0, 170, 768⟩ (by decide)

/-- Claim C6 (counterexample to the claim as stated): at canvas height
10485762 the seated rectangle starts at y = 4194305, but
floor(height * 0.40) = 2 * 10485762 / 5 = 4194304.  The code computes the
offset in f32 arithmetic ((h as f32) * 0.40_f32, then truncated), and at
this height the f32 product 4194304.8625 rounds up to 4194305.0 (the f32
spacing there is 0.5), so the truncation exceeds the exact floor. -/
theorem C6_counterexample :
    region_to_rect "left-seated" 3 10485762 = some ⟨0, 4194305, 1, 6291457⟩ ∧
    (4194305 : ℕ) ≠ 2 * 10485762 / 5 := by
  refine ⟨by decide, by decide⟩

/-- Claim C6 (amended: for canvas heights in the validated range, height ≤
4096; beyond it the f32 rounding can exceed the exact floor): for every
seated descriptor the returned rectangle has y = floor(height * 0.40) =
2 * height / 5 and y + h = height, i.e. it extends to the canvas bottom. -/
theorem C6_seated_geometry (s : String) (w h : ℕ) (rect : Rect) (hh : h ≤ 4096)
    (hseat : (from_str_loose s).is_seated = true)
    (hr : region_to_rect s w h = some rect) :
    rect.y = 2 * h / 5 ∧ rect.y + rect.h = h := by
  cases hfs : from_str_loose s with
  | leftSeated =>
    rw [region_to_rect_of_leftSeated hfs] at hr
    injection hr with hr
    subst hr
    have h45 : 2 * h / 5 ≤ h := by omega
    refine ⟨?_, ?_⟩
    · show mul040_u32 h = 2 * h / 5
      exact mul040_eq_floor h hh
    · show mul040_u32 h + (h - mul040_u32 h) = h
      rw [mul040_eq_floor h hh]
      omega
  | centerSeated =>
    rw [region_to_rect_of_centerSeated hfs] at hr
    injection hr with hr
    subst hr
    refine ⟨?_, ?_⟩
    · show mul040_u32 h = 2 * h / 5
      exact mul040_eq_floor h hh
    · show mul040_u32 h + (h - mul040_u32 h) = h
      rw [mul040_eq_floor h hh]
      omega
  | rightSeated =>
    rw [region_to_rect_of_rightSeated hfs] at hr
    injection hr with hr
    subst hr
    refine ⟨?_, ?_⟩
    · show mul040_u32 h = 2 * h / 5
      exact mul040_eq_floor h hh
    · show mul040_u32 h + (h - mul040_u32 h) = h
      rw [mul040_eq_floor h hh]
      omega
  | left => rw [hfs] at hseat; exact absurd hseat (by decide)
  | center => rw [hfs] at hseat; exact absurd hseat (by decide)
  | right => rw [hfs] at hseat; exact absurd hseat (by decide)
  | leftBackground => rw [hfs] at hseat; exact absurd hseat (by decide)
  | centerBackground => rw [hfs] at hseat; exact absurd hseat (by decide)
  | rightBackground => rw [hfs] at hseat; exact absurd hseat (by decide)
  | offScreen => rw [hfs] at hseat; exact absurd hseat (by decide)
  | other t => rw [hfs] at hseat; simp [CharacterRegion.is_seated] at hseat

/-- Claim C6 witness: the amended theorem applied to "left-seated" on the
512×768 canvas, where the rectangle is (0, 307, 170, 461). -/
theorem C6_seated_geometry_witness :
    (⟨0, 307, 170, 461⟩ : Rect).y = 2 * 768 / 5 ∧
    (⟨0, 307, 170, 461⟩ : Rect).y + (⟨0, 307, 170, 461⟩ : Rect).h = 768 :=
  C6_seated_geometry "left-seated" 512 768 ⟨0, 307, 170, 461⟩ (by omega)
    (by decide) (by decide)

/-- Claim C7: generate_mask fails exactly when directory creation or the
file write fails (region strings and color slots never cause an error), and
on success regions_drawn equals the number of input characters whose color
slot is within the 3-entry palette and whose region resolves to a
rectangle. -/
theorem C7_facade (chars : List MaskCharacter) (width height : ℕ)
    (dir : String) (filename : Option String) (cOk wOk : Bool) (ts : ℕ) :
    ((∃ r, generate_mask chars width height dir filename cOk wOk ts = Except.ok r) ↔
      (cOk = true ∧ wOk = true)) ∧
    (∀ r, generate_mask chars width height dir filename cOk wOk ts = Except.ok r →
      r.regions_drawn = spec_valid_count chars width height) := by
  unfold generate_mask
  cases cOk with
  | false => simp
  | true =>
    cases wOk with
    | false => simp
    | true =>
      simp only [Bool.not_true, Bool.false_eq_true, if_false]
      constructor
      · simp
      · intro r hr
        injection hr with hr
        subst hr
        exact generate_mask_buffer_snd chars width height

/-- Claim C7 witness: a concrete successful call — one character on the
left of a 2×2 canvas, both filesystem operations succeeding. -/
theorem C7_facade_witness :
    ∃ r, generate_mask [⟨"A", "left", 0⟩] 2 2 "m" (some "f.png") true true 0 =
      Except.ok r :=
  (C7_facade [⟨"A", "left", 0⟩] 2 2 "m" (some "f.png") true true 0).1.mpr ⟨rfl, rfl⟩

/-- Claim C8: the CRC-32 of the four ASCII bytes of "IEND" is 0xAE426082 and
the Adler-32 of the nine ASCII bytes of "Wikipedia" is 0x11E60398, the two
published test vectors. -/
theorem C8_checksum_vectors :
    crc32 [73, 69, 78, 68] = 0xAE426082 ∧
    adler32 [87, 105, 107, 105, 112, 101, 100, 105, 97] = 0x11E60398 := by
  refine ⟨by decide, by decide⟩

/-- Claim C9: for every buffer, image width, rectangle and color, fill_rect
with every buffer store modelled as a panicking Rust index-assignment
(fill_rect_checked) never panics — it returns exactly the guarded total
function's buffer — and the buffer length never changes (writes past the
end are skipped by the offset + 2 < len check, i.e. clipped). -/
theorem C9_fill_rect_safety (b : List ℕ) (wimg : ℕ) (r : Rect) (c : ℕ × ℕ × ℕ) :
    fill_rect_checked b wimg r c = some (fill_rect b wimg r c) ∧
    (fill_rect b wimg r c).length = b.length :=
  ⟨fill_rect_checked_eq b wimg r c, fill_rect_length b wimg r c⟩

/-- Claim C10: every aligned RGB triple of the buffer produced by
generate_mask_buffer is black (0,0,0) or the palette color of some listed
character whose color slot is in range — red (255,0,0) for slot 0, blue
(0,0,255) for slot 1, green (0,255,0) for slot 2, per MASK_COLORS.  The
hypothesis width * 3 < 2^32 keeps the u32 stride multiplication
(img_width * 3) from wrapping; it holds for every canvas the application
accepts (width ≤ 4096). -/
theorem C10_palette_invariant (chars : List MaskCharacter) (width height : ℕ)
    (hw : width * 3 < 2 ^ 32) (i : ℕ) :
    tripleAt (generate_mask_buffer chars width height).1 i = (0, 0, 0) ∨
      ∃ ch, ch ∈ chars ∧ ch.color_index < 3 ∧
        tripleAt (generate_mask_buffer chars width height).1 i =
          MASK_COLORS.getD ch.color_index (0, 0, 0) :=
  generate_mask_buffer_triples chars width height hw i

/-- Claim C10 witness: the invariant applied to the top-left pixel of a 3×1
canvas with a single left-region character on palette slot 0. -/
theorem C10_palette_invariant_witness :
    tripleAt (generate_mask_buffer [⟨"A", "left", 0⟩] 3 1).1 0 = (0, 0, 0) ∨
      ∃ ch, ch ∈ [(⟨"A", "left", 0⟩ : MaskCharacter)] ∧ ch.color_index < 3 ∧
        tripleAt (generate_mask_buffer [⟨"A", "left", 0⟩] 3 1).1 0 =
          MASK_COLORS.getD ch.color_index (0, 0, 0) :=
  C10_palette_invariant [⟨"A", "left", 0⟩] 3 1 (by omega) 0

end Storyteller
